import Mathlib

/-!
Verification of the chatterbox audio-generation pipeline.

This file gives a shallow embedding, in Lean 4, of the request-orchestration
core of the repository: the audio cache and its FIFO eviction
(src/chatterbox/api_server.py), the synthesis gateway `generate_audio_bytes`
(src/chatterbox/api_server.py and src/chatterbox/aws_tts_api.py), the text
segmenter `split_text_into_chunks` and the stream orchestrator
`generate_streaming_tts` (src/chatterbox/streaming_tts.py), and the
max-token handling of the HTTP entry points.  Python strings are modelled as
`List Char`, dicts as insertion-ordered association lists, floats as exact
rationals, and the external neural model / soundfile encoder / MD5 digest as
opaque function parameters.  Theorems named `cN_...` settle the frozen
claims C1..C10.
-/

namespace Chatterbox

/-- Python strings are modelled as lists of characters. -/
abbrev Str := List Char

/-- Whitespace test used by `str.strip()` and by the `\s` class of the
sentence-splitting regex (ASCII whitespace; the embedding restricts itself
to ASCII text). -/
def isWs (c : Char) : Bool :=
  c = ' ' ∨ c = '\t' ∨ c = '\n' ∨ c = '\r' ∨ c = '\x0b' ∨ c = '\x0c'

/-- Character class `[A-Z]` of the sentence-splitting regex. -/
def isUpper (c : Char) : Bool := 'A' ≤ c ∧ c ≤ 'Z'

/-- Character class `[.!?]` of the sentence-splitting regex. -/
def isSentEnd (c : Char) : Bool := c = '.' ∨ c = '!' ∨ c = '?'

/-- Python `str.lstrip()`: drop leading whitespace. -/
def lstrip (l : Str) : Str := l.dropWhile (isWs ·)

/-- Python `str.rstrip()`: drop trailing whitespace. -/
def rstrip (l : Str) : Str := (l.reverse.dropWhile (isWs ·)).reverse

/-- Python `str.strip()`: drop leading and trailing whitespace. -/
def strip (l : Str) : Str := rstrip (lstrip l)

/-! ### Python dict as insertion-ordered association list

CPython dicts preserve insertion order; assigning to an existing key keeps
its position, assigning a fresh key appends, and `next(iter(d))` is the
first (oldest) key.  We model a dict as a `List (Str × α)` with unique keys. -/

/-- Dict lookup `d[k]` / `k in d`. -/
def dictGet (d : List (Str × α)) (k : Str) : Option α :=
  (d.find? (fun p => p.1 = k)).map (·.2)

/-- Dict assignment `d[k] = v`: update in place when the key is present,
append otherwise. -/
def dictSet (d : List (Str × α)) (k : Str) (v : α) : List (Str × α) :=
  if (d.find? (fun p => p.1 = k)).isSome then
    d.map (fun p => if p.1 = k then (k, v) else p)
  else
    d ++ [(k, v)]

/-! ### Fingerprint & cache (src/chatterbox/api_server.py lines 116-117, 257-289) -/

/-- Source line 117: `MAX_CACHE_SIZE = 100`. -/
def MAX_CACHE_SIZE : Nat := 100

/-- A cache value is an `(audio_bytes, sample_rate, duration)` tuple; audio
bytes are kept abstract (type `β`). -/
abbrev CacheVal (β : Type) := β × Nat × ℚ

/-- The `AUDIO_CACHE` dict; `none` models `AUDIO_CACHE is None` (caching
disabled). -/
abbrev Cache (β : Type) := List (Str × CacheVal β)

/-- Pre-hash string of `get_cache_key` (api_server.py line 259):
`cache_str = f"{text}_{character_id}"`.  The source then returns
`hashlib.md5(cache_str.encode()).hexdigest()`; the digest is modelled as an
opaque function `md5hex` supplied by the environment. -/
def cache_str (text character_id : Str) : Str :=
  text ++ '_' :: character_id

/-- External collaborators of the api_server synthesis gateway, kept
opaque: the neural model, its sample rate, the soundfile WAV encoder and
the MD5 hex digest. -/
structure ModelCall where
  text : Str
  language_id : Str
  audio_prompt_path : Str
  exaggeration : ℚ
  temperature : ℚ
  cfg_weight : ℚ
  max_new_tokens : Int
  deriving DecidableEq

/-- A character profile (api_server.py `CHARACTER_VOICES` entries): the
fields read by `generate_audio_bytes`.  `voice_id` is optional because the
source reads it with `character.get("voice_id", "narrator")`. -/
structure CharacterProfile where
  voice_id : Option Str
  language : Str
  exaggeration : ℚ
  temperature : ℚ
  cfg_weight : ℚ

/-- A voice profile (api_server.py `VOICE_LIBRARY` entries): only
`audio_url` is read by the gateway. -/
structure VoiceProfile where
  audio_url : Str

/-- Environment of the api_server gateway: the mutable registries and the
opaque external functions. -/
structure Env (β : Type) where
  characters : List (Str × CharacterProfile)
  voices : List (Str × VoiceProfile)
  modelGenerate : ModelCall → List ℚ
  modelSr : Nat
  sfWrite : List ℚ → Nat → β
  md5hex : Str → Str

/-- Typed counterpart of the `ValueError`s raised by the gateway
(api_server.py lines 317 and 325). -/
inductive GenError where
  | unknownCharacter (character_id : Str)
  | unknownVoice (voice_id : Str)
  deriving DecidableEq

/-- Source lines 257-260 (`get_cache_key`): MD5 hex digest of
`cache_str`. -/
def get_cache_key (env : Env β) (text character_id : Str) : Str :=
  env.md5hex (cache_str text character_id)

/-- Source lines 263-273 (`get_cached_audio`): return the cached tuple, or
`none` when the cache is disabled or the key is absent.  The source only
reads `AUDIO_CACHE`; accordingly the embedding returns no modified cache. -/
def get_cached_audio (env : Env β) (cache : Option (Cache β))
    (text character_id : Str) : Option (CacheVal β) :=
  match cache with
  | none => none
  | some c => dictGet c (get_cache_key env text character_id)

/-- Source lines 276-289 (`cache_audio`): when the cache is full
(`len >= MAX_CACHE_SIZE`) delete the oldest entry (`next(iter(...))` is the
first key of the insertion-ordered dict, so deleting it drops the head),
then store under the key. -/
def cache_audio (env : Env β) (cache : Option (Cache β))
    (text character_id : Str) (audio_bytes : β) (sample_rate : Nat)
    (duration : ℚ) : Option (Cache β) :=
  match cache with
  | none => none
  | some c =>
    let c := if MAX_CACHE_SIZE ≤ c.length then c.drop 1 else c
    some (dictSet c (get_cache_key env text character_id)
      (audio_bytes, sample_rate, duration))

/-- Peak absolute sample value, `np.abs(wav_np).max()` (with value 0 on the
empty array, which the source never normalizes anyway). -/
def peakAbs (l : List ℚ) : ℚ := l.foldr (fun x m => max |x| m) 0

/-- Source lines 355-358 of api_server.py and lines 210-213 of
aws_tts_api.py (identical in both):
`max_val = np.abs(wav_np).max(); if max_val > 1.0: wav_np = wav_np / max_val * 0.95`. -/
def normalize_audio (wav : List ℚ) : List ℚ :=
  if 1 < peakAbs wav then wav.map (fun x => x / peakAbs wav * (95 / 100)) else wav

/-- Cache key override built at api_server.py line 307:
`f"{text}_{character_id}_{voice_id}" if voice_id else f"{text}_{character_id}"`. -/
def cache_key_override (text character_id : Str) (voice_id : Option Str) : Str :=
  match voice_id with
  | some v => text ++ '_' :: character_id ++ '_' :: v
  | none => text ++ '_' :: character_id

/-- Source lines 292-383 of api_server.py (`generate_audio_bytes`): check
the cache under the override key, resolve character and voice, invoke the
model on `text[:300]`, normalize, encode, store in the cache, and return
`(audio_bytes, sample_rate, duration)`.  The result triple is `(outcome,
cache after the call, number of `model.generate` invocations)`; the last
component instruments the single model call of the success path.  GPU cache
clearing (lines 369-370) is a resource-hygiene no-op in this model. -/
def generate_audio_bytes (env : Env β) (text : Str) (character_id : Str)
    (voice_id : Option Str) (max_tokens : Int) (use_cache : Bool)
    (cache : Option (Cache β)) :
    Except GenError (CacheVal β) × Option (Cache β) × Nat :=
  let key := cache_key_override text character_id voice_id
  let cached := if use_cache then get_cached_audio env cache key [] else none
  match cached with
  | some r => (.ok r, cache, 0)
  | none =>
    match dictGet env.characters character_id with
    | none => (.error (.unknownCharacter character_id), cache, 0)
    | some character =>
      let actual_voice_id :=
        match voice_id with
        | some v => v
        | none => character.voice_id.getD ('n' :: 'a' :: 'r' :: 'r' :: 'a' :: 't' :: 'o' :: 'r' :: [])
      match dictGet env.voices actual_voice_id with
      | none => (.error (.unknownVoice actual_voice_id), cache, 0)
      | some voice =>
        let wav := env.modelGenerate
          { text := text.take 300
            language_id := character.language
            audio_prompt_path := voice.audio_url
            exaggeration := character.exaggeration
            temperature := character.temperature
            cfg_weight := character.cfg_weight
            max_new_tokens := max_tokens }
        let wav_np := normalize_audio wav
        let audio_bytes := env.sfWrite wav_np env.modelSr
        let duration := (wav_np.length : ℚ) / (env.modelSr : ℚ)
        let cache' :=
          if use_cache then
            cache_audio env cache key [] audio_bytes env.modelSr duration
          else cache
        (.ok (audio_bytes, env.modelSr, duration), cache', 1)

/-! ### Segmenter (src/chatterbox/streaming_tts.py lines 15-69)

The source splits on the regex `(?<=[.!?])\s+(?=[A-Z])`: a non-empty
whitespace run is a separator exactly when the character before it is one
of `.!?` and the first character after it is an ASCII capital.  (Regex
backtracking cannot produce a shorter match inside a whitespace run: every
proper prefix of the run is followed by another whitespace character, which
is not in `[A-Z]`.)  `sentSplitAux` scans the text once; the `fuel`
argument, initialised to the text length, makes the recursion structural —
every step consumes at least one character, so the fuel never runs out on
the initial call. -/

/-- Scanner for `re.split(r'(?<=[.!?])\s+(?=[A-Z])', text)`.  `acc` holds
the current piece reversed. -/
def sentSplitAux : Nat → Str → Str → List Str
  | 0, acc, rest => [acc.reverse ++ rest]
  | _ + 1, acc, [] => [acc.reverse]
  | fuel + 1, acc, c :: rest =>
    if isSentEnd c then
      let rest' := rest.dropWhile (isWs ·)
      match rest' with
      | [] => sentSplitAux fuel (c :: acc) rest
      | u :: _ =>
        if rest.takeWhile (isWs ·) ≠ [] ∧ isUpper u then
          (acc.reverse ++ [c]) :: sentSplitAux fuel [] rest'
        else
          sentSplitAux fuel (c :: acc) rest
    else
      sentSplitAux fuel (c :: acc) rest

/-- Python `re.split(r'(?<=[.!?])\s+(?=[A-Z])', text)` (streaming_tts.py
lines 33-34). -/
def sentSplit (l : Str) : List Str := sentSplitAux l.length [] l

/-- Loop body of `split_text_into_chunks` (streaming_tts.py lines 39-64):
greedy accumulation of stripped sentences into chunks. -/
def chunksLoop (max_chars max_sentences : Nat) :
    List Str → Str → Nat → List Str → List Str
  | [], current_chunk, _sentence_count, chunks =>
      if current_chunk.isEmpty then chunks else chunks ++ [current_chunk]
  | sentence :: rest, current_chunk, sentence_count, chunks =>
      let s := strip sentence
      if s.isEmpty then
        chunksLoop max_chars max_sentences rest current_chunk sentence_count chunks
      else
        let potential_chunk := strip (current_chunk ++ ' ' :: s)
        if max_chars < potential_chunk.length ∨ max_sentences ≤ sentence_count then
          chunksLoop max_chars max_sentences rest s 1
            (if current_chunk.isEmpty then chunks else chunks ++ [current_chunk])
        else
          chunksLoop max_chars max_sentences rest potential_chunk (sentence_count + 1) chunks

/-- Source lines 15-69 (`split_text_into_chunks`). -/
def split_text_into_chunks (text : Str) (max_chars max_sentences : Nat) : List Str :=
  let sentences := sentSplit (strip text)
  if sentences.isEmpty then [] else chunksLoop max_chars max_sentences sentences [] 0 []

/-! ### Stream orchestrator (src/chatterbox/streaming_tts.py lines 72-151) -/

/-- Python `round` with two decimals (`round(duration, 2)`), rounding half
to even as CPython does. -/
def roundHalfEven (q : ℚ) : ℤ :=
  if q - ⌊q⌋ < 1 / 2 then ⌊q⌋
  else if 1 / 2 < q - ⌊q⌋ then ⌊q⌋ + 1
  else if ⌊q⌋ % 2 = 0 then ⌊q⌋ else ⌊q⌋ + 1

/-- Python `round(q, 2)`. -/
def pyRound2 (q : ℚ) : ℚ := (roundHalfEven (q * 100) : ℚ) / 100

/-- One emitted chunk dict of `generate_streaming_tts`.  A successful chunk
carries `(base64 audio, sample_rate, rounded duration)`; a failed chunk
carries the error string instead (the source dict then has an `error` key
and no audio fields). -/
structure StreamChunk where
  chunk_index : Nat
  total_chunks : Nat
  text : Str
  payload : Except Str (Str × Nat × ℚ)
  is_final : Bool

/-- Loop of `generate_streaming_tts` (lines 113-151): call
`generate_audio_fn` on each chunk text in order, threading the callee state
`σ` (the callee is stateful: in the source it reads and writes the audio
cache), and emit one `StreamChunk` per text whether the call succeeds or
raises. -/
def streamLoop (b64 : β → Str) (f : σ → Str → Except Str (β × Nat × ℚ) × σ)
    (total_chunks : Nat) : List Str → Nat → σ → List StreamChunk × σ
  | [], _, s => ([], s)
  | chunk_text :: rest, i, s =>
    let (r, s') := f s chunk_text
    let c : StreamChunk :=
      match r with
      | .ok (audio_bytes, sample_rate, duration) =>
          { chunk_index := i, total_chunks := total_chunks, text := chunk_text,
            payload := .ok (b64 audio_bytes, sample_rate, pyRound2 duration),
            is_final := decide (i = total_chunks - 1) }
      | .error e =>
          { chunk_index := i, total_chunks := total_chunks, text := chunk_text,
            payload := .error e,
            is_final := decide (i = total_chunks - 1) }
    let (out, s'') := streamLoop b64 f total_chunks rest (i + 1) s'
    (c :: out, s'')

/-- Source lines 72-151 (`generate_streaming_tts`): split the text with
`max_chars := max_chunk_chars` and the default `max_sentences = 3`, then
generate and emit each chunk in index order.  `b64` is the opaque
`base64.b64encode`; `f` is the injected `generate_audio_fn`.  The
`character_id` argument is only logged by the source. -/
def generate_streaming_tts (b64 : β → Str)
    (f : σ → Str → Except Str (β × Nat × ℚ) × σ)
    (text _character_id : Str) (max_chunk_chars : Nat) (s0 : σ) :
    List StreamChunk × σ :=
  let chunks := split_text_into_chunks text max_chunk_chars 3
  if chunks.isEmpty then ([], s0)
  else streamLoop b64 f chunks.length chunks 0 s0

/-- Reference trace of the generator calls: the outcome of `f` on each
chunk text, threaded in index order from `s0`. -/
def runCalls (f : σ → Str → Except Str (β × Nat × ℚ) × σ) :
    List Str → σ → List (Except Str (β × Nat × ℚ))
  | [], _ => []
  | t :: rest, s =>
    let (r, s') := f s t
    r :: runCalls f rest s'

/-! ### Max-token handling of the HTTP entry points -/

namespace ApiServer

/-- api_server.py line 94: `DEFAULT_MAX_TOKENS = int(os.getenv(..., 400))`
with the default environment. -/
def DEFAULT_MAX_TOKENS : Int := 400

/-- api_server.py lines 944-945 (`generate_audio` handler):
`max_tokens = int(data.get("max_tokens", DEFAULT_MAX_TOKENS));
max_tokens = max(100, min(max_tokens, 1000))`.  The value returned here is
passed unchanged to `generate_audio_bytes` and hence to the model. -/
def generate_audio_max_tokens (requested : Option Int) : Int :=
  max 100 (min (requested.getD DEFAULT_MAX_TOKENS) 1000)

/-- api_server.py lines 1163-1164 (`generate_tts` handler, also serving
`/tts-stream` via the delegation at line 1271). -/
def generate_tts_max_tokens (requested : Option Int) : Int :=
  max 100 (min (requested.getD 400) 1000)

/-- api_server.py lines 1228-1229 (`generate_tts_json` handler). -/
def generate_tts_json_max_tokens (requested : Option Int) : Int :=
  max 100 (min (requested.getD 400) 1000)

end ApiServer

namespace AwsTtsApi

/-- aws_tts_api.py line 39: `MAX_CONCURRENT_REQUESTS = 4`. -/
def MAX_CONCURRENT_REQUESTS : Nat := 4

/-- aws_tts_api.py lines 360-361 (`generate_tts` handler, also serving
`/api/v1/tts-json` via the delegation at line 426). -/
def generate_tts_max_tokens (requested : Option Int) : Int :=
  max 100 (min (requested.getD 400) 1000)

/-- aws_tts_api.py line 555 (`stream_tts` handler):
`max_tokens = int(data.get("max_tokens", 400))` with no clamping; the value
is passed unchanged to `generate_audio_bytes` (lines 558-562) and hence to
`model.generate` as `max_new_tokens` (line 192). -/
def stream_tts_max_tokens (requested : Option Int) : Int :=
  requested.getD 400

/-- aws_tts_api.py line 496: the batch handler always passes the constant
`max_tokens=400`. -/
def tts_batch_max_tokens : Int := 400

end AwsTtsApi

/-! ### Two concurrent identical-key requests (claim C5)

`generate_audio_bytes` (api_server.py lines 305-341) takes no lock: a
request checks the cache, and on a miss generates and stores.  We model two
concurrent requests for the same key at statement granularity.  For the
fixed key, the state records whether the cache holds it, each thread's
phase, and how many `model.generate` calls have happened. -/

/-- Phase of one request thread inside `generate_audio_bytes`:
before the cache check, after a miss (about to synthesize), or finished
(`hit` records whether it returned from the cache). -/
inductive ThreadPhase where
  | start
  | generating
  | done (hit : Bool)
  deriving DecidableEq

/-- Shared state of two concurrent identical-key requests. -/
structure RaceState where
  cached : Bool
  t1 : ThreadPhase
  t2 : ThreadPhase
  calls : Nat
  deriving DecidableEq

/-- Interleaving semantics of the two unsynchronised requests: each thread
first performs its cache check (lines 306-311), then, on a miss, the model
call plus cache store (lines 333-376) — coarser atomicity only removes
interleavings, so every behaviour below is a behaviour of the source. -/
inductive raceStep : RaceState → RaceState → Prop
  | check1_miss (s : RaceState) : s.t1 = .start → s.cached = false →
      raceStep s { s with t1 := .generating }
  | check1_hit (s : RaceState) : s.t1 = .start → s.cached = true →
      raceStep s { s with t1 := .done true }
  | work1 (s : RaceState) : s.t1 = .generating →
      raceStep s { s with t1 := .done false, cached := true, calls := s.calls + 1 }
  | check2_miss (s : RaceState) : s.t2 = .start → s.cached = false →
      raceStep s { s with t2 := .generating }
  | check2_hit (s : RaceState) : s.t2 = .start → s.cached = true →
      raceStep s { s with t2 := .done true }
  | work2 (s : RaceState) : s.t2 = .generating →
      raceStep s { s with t2 := .done false, cached := true, calls := s.calls + 1 }

/-- Initial state: key not cached, both requests about to run. -/
def raceInit : RaceState := { cached := false, t1 := .start, t2 := .start, calls := 0 }

/-! ### Concurrent requests against the aws server (claim C9)

aws_tts_api.py line 117 builds `EXECUTOR = ThreadPoolExecutor(max_workers =
MAX_CONCURRENT_REQUESTS)`, but nothing in the file ever submits work to it:
the only occurrence of `EXECUTOR` is its construction.  Each HTTP request
thread runs `generate_tts` (lines 323-399), which calls
`generate_audio_bytes` — and hence `model.generate` — directly, with no
semaphore, lock, or executor between request admission and the model call. -/

/-- Phase of one aws request thread: before the model call, inside
`model.generate`, or finished. -/
inductive AwsPhase where
  | pending
  | inModel
  | finished
  deriving DecidableEq

/-- Interleaving semantics of `n` concurrent aws requests: any pending
thread may enter the model call at any time (the handler has no admission
gate), and any thread inside the model call may finish. -/
inductive awsStep : List AwsPhase → List AwsPhase → Prop
  | enter (l r : List AwsPhase) :
      awsStep (l ++ .pending :: r) (l ++ .inModel :: r)
  | leave (l r : List AwsPhase) :
      awsStep (l ++ .inModel :: r) (l ++ .finished :: r)

/-- Number of `model.generate` calls in flight. -/
def inFlight (s : List AwsPhase) : Nat := s.count .inModel

/-! ### Remaining definitions used by the theorems -/

/-- api_server.py line 93: `MAX_TEXT_LENGTH = int(os.getenv(..., 500))`
with the default environment; input validation rejects longer texts
(line 920). -/
def MAX_TEXT_LENGTH : Nat := 500

/-- The full pre-hash string actually fed to `hashlib.md5` for a request
`(text, character_id, voice_id)`: `generate_audio_bytes` builds
`cache_key_override` (line 307) and passes it as the `text` argument of
`get_cache_key` with `character_id = ""` (lines 309 and 376), so the
hashed string is `cache_str cache_key_override ""`. -/
def request_pre_hash (text character_id : Str) (voice_id : Option Str) : Str :=
  cache_str (cache_key_override text character_id voice_id) []

/-- Shape of the payload the stream orchestrator derives from one outcome
of `generate_audio_fn` (streaming_tts.py lines 118-151). -/
def toPayload (b64 : β → Str) :
    Except Str (β × Nat × ℚ) → Except Str (Str × Nat × ℚ)
  | .ok (audio_bytes, sample_rate, duration) =>
      .ok (b64 audio_bytes, sample_rate, pyRound2 duration)
  | .error e => .error e

/-- Driver for the cache-eviction claim: insert a sequence of
`((text, character_id), value)` entries through `cache_audio`, in order. -/
def insertAll (env : Env β) (cache : Option (Cache β)) :
    List ((Str × Str) × CacheVal β) → Option (Cache β)
  | [] => cache
  | ((t, c), v) :: rest =>
      insertAll env (cache_audio env cache t c v.1 v.2.1 v.2.2) rest

/-- Dict entry an insert of `((t, c), v)` creates. -/
def entryOf (env : Env β) (e : (Str × Str) × CacheVal β) : Str × CacheVal β :=
  (get_cache_key env e.1.1 e.1.2, e.2)

/-- Character registry entry of `testEnv`: character `"n"` bound to voice
`"v"`. -/
def testCharacter : CharacterProfile where
  voice_id := some ['v']
  language := ['e', 'n']
  exaggeration := 1 / 2
  temperature := 7 / 10
  cfg_weight := 1 / 2

/-- Voice registry entry of `testEnv`. -/
def testVoice : VoiceProfile where
  audio_url := ['u']

/-- Concrete gateway environment used by the witnesses. -/
def testEnv : Env Nat where
  characters := [(['n'], testCharacter)]
  voices := [(['v'], testVoice)]
  modelGenerate := fun _ => [1 / 2]
  modelSr := 2
  sfWrite := fun l sr => l.length + sr
  md5hex := fun s => s

/-- Concrete insertion sequence for the eviction witness:
`MAX_CACHE_SIZE + 1` entries with pairwise-distinct single-character
texts (hence pairwise-distinct cache keys under `testEnv`). -/
def c2Entries : List ((Str × Str) × CacheVal Nat) :=
  (List.range (MAX_CACHE_SIZE + 1)).map
    (fun i => (([Char.ofNat (33 + i)], []), (i, 0, 0)))

/-- Four-sentence text of the spec's streaming-failure scenario. -/
def c4Text : Str :=
  "Hello there. How are you today? I am fine. Nice to meet you.".toList

/-- Stateful generator for the streaming witness: fails exactly on its
second call (chunk index 1), succeeds otherwise. -/
def c4Gen : Nat → Str → Except Str (Nat × Nat × ℚ) × Nat :=
  fun n _ => (if n = 1 then .error ['b', 'o', 'o', 'm'] else .ok (0, 24000, 1), n + 1)

/-- Space-joined chunk text of a group of sentences: the string the
chunking loop accumulates for that group. -/
def joinSp : List Str → Str
  | [] => []
  | [s] => s
  | s :: g => s ++ ' ' :: joinSp g

/-- The sentence list of a text: the regex pieces of the stripped text,
each stripped, with empty pieces discarded — exactly the sentences the
chunking loop consumes. -/
def sents (text : Str) : List Str :=
  ((sentSplit (strip text)).map strip).filter (fun s => !s.isEmpty)

/-- A string whose first character, if any, is not whitespace. -/
def NoLeadWs (l : Str) : Prop := ∀ c, l.head? = some c → isWs c = false

/-- A string whose last character, if any, is not whitespace. -/
def NoTrailWs (l : Str) : Prop := ∀ c, l.getLast? = some c → isWs c = false

/-- `SepJoin ps u`: the pieces `ps`, interleaved with non-empty all-white
separator runs, concatenate to `u` — the defining property of the regex
split `re.split(r'(?<=[.!?])\s+(?=[A-Z])', u)`. -/
inductive SepJoin : List Str → Str → Prop
  | single (s : Str) : SepJoin [s] s
  | cons (s w t : Str) (rest : List Str) : w ≠ [] →
      (∀ c ∈ w, isWs c = true) → SepJoin rest t → SepJoin (s :: rest) (s ++ w ++ t)

/-- `WsJoin ss u`: the text `u` is the non-empty strings `ss` in order,
interleaved with (possibly empty) all-whitespace filler — so `u` and the
concatenation of `ss` agree up to separator whitespace. -/
inductive WsJoin : List Str → Str → Prop
  | nil (w : Str) : (∀ c ∈ w, isWs c = true) → WsJoin [] w
  | cons (w s t : Str) (rest : List Str) : s ≠ [] →
      (∀ c ∈ w, isWs c = true) → WsJoin rest t → WsJoin (s :: rest) (w ++ s ++ t)

/-- Four-sentence text of the spec's end-to-end segmentation scenario. -/
def c3Text : Str := "Hello there. How are you today? I am fine.".toList

end Chatterbox

namespace Chatterbox

/-! ## Theorems -/

/-! ### Claim C6: max-token clamping at the HTTP entry points -/

/-- Claim C6 counterexample: on the aws `/api/v1/tts-stream` path the
requested `max_tokens = 5000` reaches the model unclamped, outside the
range `[100, 1000]`, so the claim that every request path clamps into that
range is false. -/
theorem c6_counterexample :
    AwsTtsApi.stream_tts_max_tokens (some 5000) = 5000 ∧
    ¬(100 ≤ AwsTtsApi.stream_tts_max_tokens (some 5000) ∧
      AwsTtsApi.stream_tts_max_tokens (some 5000) ≤ 1000) := by
  decide

/-- Claim C6 (amended): the `generate_audio`, `generate_tts` and
`generate_tts_json` handlers of api_server.py and the `generate_tts`
handler of aws_tts_api.py clamp the requested max-tokens value into
`[100, 1000]`, and the aws batch handler uses the constant 400; but the aws
`stream_tts` handler passes `int(requested or 400)` to the model with no
clamping at all. -/
theorem c6_clamped_on_all_paths_except_aws_stream (requested : Option Int) :
    (100 ≤ ApiServer.generate_audio_max_tokens requested ∧
      ApiServer.generate_audio_max_tokens requested ≤ 1000) ∧
    (100 ≤ ApiServer.generate_tts_max_tokens requested ∧
      ApiServer.generate_tts_max_tokens requested ≤ 1000) ∧
    (100 ≤ ApiServer.generate_tts_json_max_tokens requested ∧
      ApiServer.generate_tts_json_max_tokens requested ≤ 1000) ∧
    (100 ≤ AwsTtsApi.generate_tts_max_tokens requested ∧
      AwsTtsApi.generate_tts_max_tokens requested ≤ 1000) ∧
    (100 ≤ AwsTtsApi.tts_batch_max_tokens ∧
      AwsTtsApi.tts_batch_max_tokens ≤ 1000) ∧
    AwsTtsApi.stream_tts_max_tokens requested = requested.getD 400 := by
  cases requested with
  | none => exact ⟨by decide, by decide, by decide, by decide, by decide, rfl⟩
  | some v =>
      refine ⟨⟨?_, ?_⟩, ⟨?_, ?_⟩, ⟨?_, ?_⟩, ⟨?_, ?_⟩, by decide, rfl⟩ <;>
        simp only [ApiServer.generate_audio_max_tokens,
          ApiServer.generate_tts_max_tokens, ApiServer.generate_tts_json_max_tokens,
          AwsTtsApi.generate_tts_max_tokens, ApiServer.DEFAULT_MAX_TOKENS,
          Option.getD_some] <;>
        omega

/-! ### Claim C7: output normalization -/

theorem peakAbs_nonneg (l : List ℚ) : 0 ≤ peakAbs l := by
  induction l with
  | nil => simp [peakAbs]
  | cons x l ih => exact le_max_of_le_right ih

theorem peakAbs_map_mul (l : List ℚ) (c : ℚ) (hc : 0 ≤ c) :
    peakAbs (l.map (fun x => x * c)) = peakAbs l * c := by
  induction l with
  | nil => simp [peakAbs]
  | cons x l ih =>
      simp only [List.map_cons, peakAbs, List.foldr_cons] at ih ⊢
      rw [ih, abs_mul, abs_of_nonneg hc, max_mul_of_nonneg _ _ hc]

/-- Claim C7: samples whose peak absolute value is at most full scale are
encoded unchanged; when the peak exceeds full scale, every sample is
multiplied by the single factor `0.95 / peak`, and the resulting peak is
exactly `0.95`. -/
theorem c7_normalize_clipping_safe (wav : List ℚ) :
    (peakAbs wav ≤ 1 → normalize_audio wav = wav) ∧
    (1 < peakAbs wav →
      normalize_audio wav = wav.map (fun x => x * (95 / 100 / peakAbs wav)) ∧
      peakAbs (normalize_audio wav) = 95 / 100) := by
  constructor
  · intro h
    simp [normalize_audio, not_lt.mpr h]
  · intro h
    have hp : (0 : ℚ) < peakAbs wav := lt_trans one_pos h
    have hne : peakAbs wav ≠ 0 := ne_of_gt hp
    have hfun : (fun x : ℚ => x / peakAbs wav * (95 / 100)) =
        fun x : ℚ => x * (95 / 100 / peakAbs wav) := by
      funext x
      rw [div_mul_eq_mul_div, mul_div_assoc]
    have hmap : normalize_audio wav =
        wav.map (fun x => x * (95 / 100 / peakAbs wav)) := by
      simp only [normalize_audio, if_pos h, hfun]
    refine ⟨hmap, ?_⟩
    rw [hmap, peakAbs_map_mul _ _ (by positivity), mul_comm,
      div_mul_cancel₀ _ hne]

/-- Witness for C7: a concrete over-full-scale signal is scaled to peak
`0.95`. -/
theorem c7_witness :
    normalize_audio [2] = [2].map (fun x => x * (95 / 100 / peakAbs [2])) ∧
    peakAbs (normalize_audio [2]) = 95 / 100 :=
  (c7_normalize_clipping_safe [2]).2 (by norm_num [peakAbs])

/-! ### Claim C8: cache-key fingerprint -/

/-- Claim C8 counterexample: the requests `("a_b", "c", no override)` and
`("a", "b_c", no override)` have different (text, resolved character,
resolved voice) triples, yet produce the identical pre-hash string
`"a_b_c_"` — underscore-joining is ambiguous, so the pre-hash is not
injective on differing triples. -/
theorem c8_counterexample :
    request_pre_hash ['a', '_', 'b'] ['c'] none =
      request_pre_hash ['a'] ['b', '_', 'c'] none ∧
    (['a', '_', 'b'] : Str) ≠ ['a'] := by
  decide

/-- Claim C8 (amended): the cache key is the MD5 hex digest of an
underscore-joined concatenation of the raw text, the requested character
id, and the voice override when one is supplied (neither the character's
bound voice id nor any text normalization enters the key).  The joined
string is not injective on differing request triples, but supplying a
voice override for otherwise-identical text and character always yields a
different pre-hash string — a cache miss by design. -/
theorem c8_voice_override_changes_prehash (t c v : Str) :
    request_pre_hash t c (some v) ≠ request_pre_hash t c none := by
  intro h
  apply_fun List.length at h
  simp only [request_pre_hash, cache_str, cache_key_override,
    List.length_append, List.length_cons] at h
  omega

/-! ### Claim C2: FIFO cache eviction -/

theorem dictGet_cons (p : Str × α) (d : List (Str × α)) (k : Str) :
    dictGet (p :: d) k = if p.1 = k then some p.2 else dictGet d k := by
  rcases Decidable.em (p.1 = k) with h | h
  · rw [if_pos h]
    unfold dictGet
    rw [List.find?_cons_of_pos _ (by simpa using h)]
    rfl
  · rw [if_neg h]
    unfold dictGet
    rw [List.find?_cons_of_neg _ (by simpa using h)]

theorem dictGet_nil (k : Str) : dictGet ([] : List (Str × α)) k = none := rfl

theorem dictGet_eq_none_iff (d : List (Str × α)) (k : Str) :
    dictGet d k = none ↔ ∀ p ∈ d, p.1 ≠ k := by
  simp only [dictGet, Option.map_eq_none', List.find?_eq_none,
    decide_eq_true_eq]

/-- When the key is fresh, dict assignment appends the new entry. -/
theorem dictSet_fresh (d : List (Str × α)) (k : Str) (v : α)
    (h : dictGet d k = none) : dictSet d k v = d ++ [(k, v)] := by
  have hf : d.find? (fun p => decide (p.1 = k)) = none :=
    Option.map_eq_none'.mp h
  simp only [dictSet, hf, Option.isSome_none, Bool.false_eq_true, if_false]

theorem dictGet_drop_none (d : List (Str × α)) (k : Str) (n : Nat)
    (h : dictGet d k = none) : dictGet (d.drop n) k = none := by
  rw [dictGet_eq_none_iff] at h ⊢
  exact fun p hp => h p (List.mem_of_mem_drop hp)

theorem dictGet_append_none (d e : List (Str × α)) (k : Str)
    (hd : dictGet d k = none) (he : dictGet e k = none) :
    dictGet (d ++ e) k = none := by
  rw [dictGet_eq_none_iff] at hd he ⊢
  intro p hp
  rcases List.mem_append.mp hp with h | h
  · exact hd p h
  · exact he p h

/-- Core of claim C2: inserting a sequence of fresh, pairwise-distinct keys
through `cache_audio` keeps exactly the most recent `MAX_CACHE_SIZE`
entries, in insertion order — strict first-in-first-out eviction. -/
theorem insertAll_fresh (env : Env β) :
    ∀ (es : List ((Str × Str) × CacheVal β)) (c : Cache β),
      c.length ≤ MAX_CACHE_SIZE →
      (∀ e ∈ es, dictGet c (get_cache_key env e.1.1 e.1.2) = none) →
      (es.map (fun e => get_cache_key env e.1.1 e.1.2)).Nodup →
      insertAll env (some c) es =
        some ((c ++ es.map (entryOf env)).drop
          (c.length + es.length - MAX_CACHE_SIZE))
  | [], c, hc, _, _ => by
      simp [insertAll, Nat.sub_eq_zero_of_le hc]
  | ((t, cid), v) :: es, c, hc, hfresh, hnodup => by
      have hk : dictGet c (get_cache_key env t cid) = none :=
        hfresh _ (List.mem_cons_self _ _)
      have hnodup' :
          (es.map (fun e => get_cache_key env e.1.1 e.1.2)).Nodup :=
        (List.nodup_cons.mp hnodup).2
      have hkne : ∀ e ∈ es,
          get_cache_key env e.1.1 e.1.2 ≠ get_cache_key env t cid := by
        intro e he heq
        exact (List.nodup_cons.mp hnodup).1 (List.mem_map.mpr ⟨e, he, heq⟩)
      have hfresh2 : ∀ e ∈ es, ∀ (c' : Cache β),
          dictGet c' (get_cache_key env e.1.1 e.1.2) = none →
          dictGet (c' ++ [(get_cache_key env t cid, v)])
            (get_cache_key env e.1.1 e.1.2) = none := by
        intro e he c' hc'
        refine dictGet_append_none _ _ _ hc' ?_
        rw [dictGet_eq_none_iff]
        intro p hp
        rcases List.mem_singleton.mp hp with rfl
        exact Ne.symm (hkne e he)
      by_cases hfull : MAX_CACHE_SIZE ≤ c.length
      · have hlen : c.length = MAX_CACHE_SIZE := le_antisymm hc hfull
        have hstep : insertAll env (some c) (((t, cid), v) :: es) =
            insertAll env (some (c.drop 1 ++ [(get_cache_key env t cid, v)])) es := by
          simp only [insertAll, cache_audio, if_pos hfull]
          rw [dictSet_fresh _ _ _ (dictGet_drop_none _ _ _ hk)]
        rw [hstep]
        rw [insertAll_fresh env es (c.drop 1 ++ [(get_cache_key env t cid, v)])
          (by simp only [List.length_append, List.length_drop, List.length_cons,
            List.length_nil, hlen, MAX_CACHE_SIZE]; omega)
          (fun e he => hfresh2 e he _
            (dictGet_drop_none _ _ _ (hfresh e (List.mem_cons_of_mem _ he))))
          hnodup']
        rcases c with _ | ⟨hd, tl⟩
        · simp only [MAX_CACHE_SIZE, List.length_nil] at hlen
          omega
        · simp only [List.length_cons] at hlen
          have h1 : (List.drop 1 (hd :: tl) ++
              [(get_cache_key env t cid, v)]).length + es.length
              - MAX_CACHE_SIZE = es.length := by
            simp only [List.length_append, List.length_drop, List.length_cons,
              List.length_nil]
            omega
          have h2 : (hd :: tl).length + (((t, cid), v) :: es).length
              - MAX_CACHE_SIZE = es.length + 1 := by
            simp only [List.length_cons]
            omega
          rw [h1, h2, List.map_cons, List.drop_succ_cons, List.drop_zero,
            List.cons_append, List.drop_succ_cons, List.append_assoc,
            List.singleton_append]
          rfl
      · have hstep : insertAll env (some c) (((t, cid), v) :: es) =
            insertAll env (some (c ++ [(get_cache_key env t cid, v)])) es := by
          simp only [insertAll, cache_audio, if_neg hfull]
          rw [dictSet_fresh _ _ _ hk]
        rw [hstep]
        rw [insertAll_fresh env es (c ++ [(get_cache_key env t cid, v)])
          (by simp only [List.length_append, List.length_cons, List.length_nil]
              omega)
          (fun e he => hfresh2 e he _ (hfresh e (List.mem_cons_of_mem _ he)))
          hnodup']
        have hn : (c ++ [(get_cache_key env t cid, v)]).length + es.length
            - MAX_CACHE_SIZE
            = c.length + (((t, cid), v) :: es).length - MAX_CACHE_SIZE := by
          simp only [List.length_append, List.length_cons, List.length_nil]
          omega
        rw [hn, List.map_cons, List.append_assoc, List.singleton_append]
        rfl

/-- Claim C2: starting from an empty cache of capacity
`MAX_CACHE_SIZE = 100`, inserting `MAX_CACHE_SIZE + 1` entries with
pairwise-distinct keys evicts exactly the first-inserted entry and leaves
the other `MAX_CACHE_SIZE` entries intact, in insertion order; and a cache
lookup (`get_cached_audio`) is a pure read of the cache — it returns the
stored tuple and, by construction in the source, performs no write, so a
hit changes neither the content nor the insertion order. -/
theorem c2_fifo_eviction (env : Env β)
    (es : List ((Str × Str) × CacheVal β))
    (hlen : es.length = MAX_CACHE_SIZE + 1)
    (hkeys : (es.map (fun e => get_cache_key env e.1.1 e.1.2)).Nodup) :
    insertAll env (some []) es = some ((es.map (entryOf env)).drop 1) ∧
    ∀ (c : Cache β) (t cid : Str),
      get_cached_audio env (some c) t cid =
        dictGet c (get_cache_key env t cid) := by
  refine ⟨?_, fun c t cid => rfl⟩
  have := insertAll_fresh env es [] (by simp [MAX_CACHE_SIZE])
    (fun e _ => rfl) hkeys
  simpa [hlen] using this

/-- Witness for C2: 101 concrete inserts into the empty cache keep exactly
the last 100 entries in insertion order. -/
theorem c2_witness :
    c2Entries.length = MAX_CACHE_SIZE + 1 ∧
    (insertAll testEnv (some []) c2Entries =
        some ((c2Entries.map (entryOf testEnv)).drop 1) ∧
      ∀ (c : Cache Nat) (t cid : Str),
        get_cached_audio testEnv (some c) t cid =
          dictGet c (get_cache_key testEnv t cid)) :=
  ⟨by decide, c2_fifo_eviction testEnv c2Entries (by decide) (by decide)⟩

/-! ### Claim C1: sequential identical requests -/

/-- Looking up the key just assigned returns the assigned value. -/
theorem dictGet_map_update (d : List (Str × α)) (k : Str) (v : α)
    (h : (d.find? (fun p => decide (p.1 = k))).isSome = true) :
    dictGet (d.map (fun p => if p.1 = k then (k, v) else p)) k = some v := by
  induction d with
  | nil => simp at h
  | cons p d ih =>
      rcases Decidable.em (p.1 = k) with hp | hp
      · rw [List.map_cons, if_pos hp, dictGet_cons]
        simp
      · rw [List.map_cons, if_neg hp, dictGet_cons, if_neg hp]
        apply ih
        rwa [List.find?_cons_of_neg _ (by simpa using hp)] at h

theorem dictGet_dictSet_self (d : List (Str × α)) (k : Str) (v : α) :
    dictGet (dictSet d k v) k = some v := by
  unfold dictSet
  by_cases h : (d.find? (fun p => decide (p.1 = k))).isSome = true
  · rw [if_pos h]
    exact dictGet_map_update d k v h
  · rw [if_neg h]
    have hf : d.find? (fun p => decide (p.1 = k)) = none := by
      rcases hopt : d.find? (fun p => decide (p.1 = k)) with _ | w
      · exact hopt
      · exact absurd (by rw [hopt]; rfl) h
    unfold dictGet
    rw [List.find?_append, hf]
    simp

/-- Claim C1: with caching enabled, a registered character, a registered
(effective) voice, and the request's key not yet cached, two sequential
identical requests perform exactly one model call (the first call invokes
`model.generate` once, the second zero times), and the second call returns
exactly the `(audio_bytes, sample_rate, duration)` tuple the first call
stored in the cache. -/
theorem c1_second_identical_request_hits_cache (env : Env β)
    (text character_id : Str) (voice_id : Option Str) (max_tokens : Int)
    (cache : Cache β) (ch : CharacterProfile)
    (hchar : dictGet env.characters character_id = some ch)
    (hvoice : (dictGet env.voices
      (match voice_id with
       | some v => v
       | none => ch.voice_id.getD
           ('n' :: 'a' :: 'r' :: 'r' :: 'a' :: 't' :: 'o' :: 'r' :: []))).isSome = true)
    (hmiss : dictGet cache
      (get_cache_key env (cache_key_override text character_id voice_id) [])
      = none) :
    ∃ x,
      (generate_audio_bytes env text character_id voice_id max_tokens true
        (some cache)).1 = .ok x ∧
      (generate_audio_bytes env text character_id voice_id max_tokens true
        (some cache)).2.2 = 1 ∧
      (generate_audio_bytes env text character_id voice_id max_tokens true
        (generate_audio_bytes env text character_id voice_id max_tokens true
          (some cache)).2.1).1 = .ok x ∧
      (generate_audio_bytes env text character_id voice_id max_tokens true
        (generate_audio_bytes env text character_id voice_id max_tokens true
          (some cache)).2.1).2.2 = 0 ∧
      get_cached_audio env
        (generate_audio_bytes env text character_id voice_id max_tokens true
          (some cache)).2.1
        (cache_key_override text character_id voice_id) [] = some x := by
  obtain ⟨vo, hvo⟩ := Option.isSome_iff_exists.mp hvoice
  simp only [generate_audio_bytes, get_cached_audio, if_true, hmiss, hchar,
    hvo, cache_audio, dictGet_dictSet_self]
  exact ⟨_, rfl, trivial, rfl, trivial, rfl⟩

/-- Witness for C1: a concrete pair of identical requests against the
empty cache. -/
theorem c1_witness :
    ∃ x,
      (generate_audio_bytes testEnv ['h', 'i'] ['n'] none 400 true
        (some [])).1 = .ok x ∧
      (generate_audio_bytes testEnv ['h', 'i'] ['n'] none 400 true
        (some [])).2.2 = 1 ∧
      (generate_audio_bytes testEnv ['h', 'i'] ['n'] none 400 true
        (generate_audio_bytes testEnv ['h', 'i'] ['n'] none 400 true
          (some [])).2.1).1 = .ok x ∧
      (generate_audio_bytes testEnv ['h', 'i'] ['n'] none 400 true
        (generate_audio_bytes testEnv ['h', 'i'] ['n'] none 400 true
          (some [])).2.1).2.2 = 0 ∧
      get_cached_audio testEnv
        (generate_audio_bytes testEnv ['h', 'i'] ['n'] none 400 true
          (some [])).2.1
        (cache_key_override ['h', 'i'] ['n'] none) [] = some x :=
  c1_second_identical_request_hits_cache testEnv ['h', 'i'] ['n'] none 400
    [] testCharacter rfl rfl rfl

/-! ### Claim C10: 300-character truncation at the model call -/

/-- Claim C10: the gateway passes only `text[:300]` to the model, although
validation accepts texts up to `MAX_TEXT_LENGTH = 500` characters: two
accepted texts agreeing on their first 300 characters produce identical
synthesis outcomes (same character, voice and max-tokens, caching off),
while their cache keys — both the override strings and the full pre-hash
strings, derived from the full texts — are distinct. -/
theorem c10_model_sees_only_300_chars (env : Env β) (t1 t2 : Str)
    (character_id : Str) (voice_id : Option Str) (max_tokens : Int)
    (h300 : t1.take 300 = t2.take 300) (hne : t1 ≠ t2)
    (_hlen1 : t1.length ≤ MAX_TEXT_LENGTH)
    (_hlen2 : t2.length ≤ MAX_TEXT_LENGTH) :
    generate_audio_bytes env t1 character_id voice_id max_tokens false none =
      generate_audio_bytes env t2 character_id voice_id max_tokens false none ∧
    cache_key_override t1 character_id voice_id ≠
      cache_key_override t2 character_id voice_id ∧
    request_pre_hash t1 character_id voice_id ≠
      request_pre_hash t2 character_id voice_id := by
  have hkey : cache_key_override t1 character_id voice_id ≠
      cache_key_override t2 character_id voice_id := by
    rcases voice_id with _ | v
    · simp only [cache_key_override]
      intro h
      exact hne (List.append_cancel_right h)
    · simp only [cache_key_override]
      intro h
      exact hne (List.append_cancel_right (List.append_cancel_right h))
  refine ⟨?_, hkey, ?_⟩
  · simp [generate_audio_bytes, h300]
  · simp only [request_pre_hash, cache_str]
    intro h
    exact hkey (List.append_cancel_right h)

set_option maxRecDepth 8000 in
/-- Witness for C10: two concrete accepted texts that differ only after
position 300. -/
theorem c10_witness :
    generate_audio_bytes testEnv (List.replicate 300 'a') ['n'] none 400
        false none =
      generate_audio_bytes testEnv (List.replicate 300 'a' ++ ['b']) ['n']
        none 400 false none ∧
    cache_key_override (List.replicate 300 'a') ['n'] none ≠
      cache_key_override (List.replicate 300 'a' ++ ['b']) ['n'] none ∧
    request_pre_hash (List.replicate 300 'a') ['n'] none ≠
      request_pre_hash (List.replicate 300 'a' ++ ['b']) ['n'] none :=
  c10_model_sees_only_300_chars testEnv (List.replicate 300 'a')
    (List.replicate 300 'a' ++ ['b']) ['n'] none 400 (by decide) (by decide)
    (by decide) (by decide)

/-! ### Claim C4: per-chunk failure isolation and the terminal flag -/

/-- Invariant of the orchestration loop: one chunk is emitted per chunk
text, in index order, carrying its index, the total count, its source
text, the terminal flag exactly at index `total - 1`, and a payload
determined by the in-order outcome of the generator call. -/
theorem streamLoop_spec (b64 : β → Str)
    (f : σ → Str → Except Str (β × Nat × ℚ) × σ) (n : Nat) :
    ∀ (l : List Str) (i : Nat) (s : σ),
      ((streamLoop b64 f n l i s).1).length = l.length ∧
      ∀ j, j < l.length →
        ∃ ch, ((streamLoop b64 f n l i s).1).get? j = some ch ∧
          ch.chunk_index = i + j ∧
          ch.total_chunks = n ∧
          l.get? j = some ch.text ∧
          (ch.is_final = true ↔ i + j = n - 1) ∧
          ∃ r, (runCalls f l s).get? j = some r ∧
            ch.payload = toPayload b64 r
  | [], i, s => by simp [streamLoop]
  | t :: rest, i, s => by
      rcases hf : f s t with ⟨r, s'⟩
      have ih := streamLoop_spec b64 f n rest (i + 1) s'
      constructor
      · simp only [streamLoop, hf, List.length_cons]
        rw [ih.1]
      · intro j hj
        rcases j with _ | j
        · rcases r with e | ⟨a, sr, d⟩
          · refine ⟨⟨i, n, t, .error e, decide (i = n - 1)⟩,
              ?_, by simp, rfl, rfl, ?_, .error e, ?_, rfl⟩
            · simp only [streamLoop, hf]
              rfl
            · simp [decide_eq_true_iff]
            · simp only [runCalls, hf]
              rfl
          · refine ⟨⟨i, n, t, .ok (b64 a, sr, pyRound2 d), decide (i = n - 1)⟩,
              ?_, by simp, rfl, rfl, ?_, .ok (a, sr, d), ?_, rfl⟩
            · simp only [streamLoop, hf]
              rfl
            · simp [decide_eq_true_iff]
            · simp only [runCalls, hf]
              rfl
        · have hj' : j < rest.length := by
            simpa using Nat.lt_of_succ_lt_succ hj
          obtain ⟨ch, hget, hidx, htot, htext, hfin, rr, hrr, hpay⟩ :=
            ih.2 j hj'
          refine ⟨ch, ?_, ?_, htot, htext, ?_, rr, ?_, hpay⟩
          · simp only [streamLoop, hf]
            simpa using hget
          · rw [hidx]
            omega
          · rw [hfin]
            omega
          · simp only [runCalls, hf]
            simpa using hrr

/-- Claim C4: in a streaming generation over `n` chunks, one chunk is
emitted per index in order whether or not the generator call for that
index fails; a failed index still yields a chunk carrying the error and
the source text (the payload is the image of the in-order call outcome),
the remaining indices are still attempted in order, and `is_final` is true
exactly at index `n - 1`, regardless of success or failure there. -/
theorem c4_failure_isolation_and_terminal_flag (b64 : β → Str)
    (f : σ → Str → Except Str (β × Nat × ℚ) × σ)
    (text character_id : Str) (max_chunk_chars : Nat) (s0 : σ) :
    ((generate_streaming_tts b64 f text character_id max_chunk_chars s0).1).length
      = (split_text_into_chunks text max_chunk_chars 3).length ∧
    ∀ j, j < (split_text_into_chunks text max_chunk_chars 3).length →
      ∃ ch,
        ((generate_streaming_tts b64 f text character_id max_chunk_chars
          s0).1).get? j = some ch ∧
        ch.chunk_index = j ∧
        ch.total_chunks = (split_text_into_chunks text max_chunk_chars 3).length ∧
        (split_text_into_chunks text max_chunk_chars 3).get? j = some ch.text ∧
        (ch.is_final = true ↔
          j = (split_text_into_chunks text max_chunk_chars 3).length - 1) ∧
        ∃ r, (runCalls f (split_text_into_chunks text max_chunk_chars 3)
            s0).get? j = some r ∧
          ch.payload = toPayload b64 r := by
  by_cases hemp : (split_text_into_chunks text max_chunk_chars 3).isEmpty
  · constructor
    · simp [generate_streaming_tts, hemp, List.isEmpty_iff.mp hemp]
    · intro j hj
      rw [List.isEmpty_iff.mp hemp] at hj
      simp at hj
  · have hspec := streamLoop_spec b64 f
      (split_text_into_chunks text max_chunk_chars 3).length
      (split_text_into_chunks text max_chunk_chars 3) 0 s0
    constructor
    · simpa [generate_streaming_tts, hemp] using hspec.1
    · intro j hj
      obtain ⟨ch, hget, hidx, htot, htext, hfin, rr, hrr, hpay⟩ :=
        hspec.2 j hj
      refine ⟨ch, ?_, ?_, htot, htext, ?_, rr, hrr, hpay⟩
      · simpa [generate_streaming_tts, hemp] using hget
      · simpa using hidx
      · simpa using hfin

/-- Witness for C4: the spec scenario — four single-sentence chunks with a
forced failure on the second call still emits a chunk at index 1. -/
theorem c4_witness :
    1 < (split_text_into_chunks c4Text 5 3).length ∧
    ∃ ch,
      ((generate_streaming_tts (fun _ => ['x']) c4Gen c4Text ['n'] 5
        0).1).get? 1 = some ch ∧
      ch.chunk_index = 1 ∧
      ch.total_chunks = (split_text_into_chunks c4Text 5 3).length ∧
      (split_text_into_chunks c4Text 5 3).get? 1 = some ch.text ∧
      (ch.is_final = true ↔
        1 = (split_text_into_chunks c4Text 5 3).length - 1) ∧
      ∃ r, (runCalls c4Gen (split_text_into_chunks c4Text 5 3) 0).get? 1
          = some r ∧
        ch.payload = toPayload (fun _ => ['x']) r :=
  ⟨by decide,
    (c4_failure_isolation_and_terminal_flag (fun _ => ['x']) c4Gen c4Text
      ['n'] 5 0).2 1 (by decide)⟩

/-! ### Claim C5: concurrent identical-key requests -/

/-- Claim C5 counterexample: a legal interleaving of two concurrent
identical-key requests — both cache checks race ahead of either store —
performs two model calls, not exactly one: `generate_audio_bytes` takes no
per-key lock, so the second caller neither waits on nor joins the first. -/
theorem c5_counterexample :
    Relation.ReflTransGen raceStep raceInit
      ⟨true, .done false, .done false, 2⟩ ∧
    (⟨true, .done false, .done false, 2⟩ : RaceState).calls = 2 := by
  have h1 : raceStep raceInit ⟨false, .generating, .start, 0⟩ :=
    raceStep.check1_miss raceInit rfl rfl
  have h2 : raceStep ⟨false, .generating, .start, 0⟩
      ⟨false, .generating, .generating, 0⟩ :=
    raceStep.check2_miss _ rfl rfl
  have h3 : raceStep ⟨false, .generating, .generating, 0⟩
      ⟨true, .done false, .generating, 1⟩ :=
    raceStep.work1 _ rfl
  have h4 : raceStep ⟨true, .done false, .generating, 1⟩
      ⟨true, .done false, .done false, 2⟩ :=
    raceStep.work2 _ rfl
  exact ⟨.head h1 (.head h2 (.head h3 (.single h4))), rfl⟩

/-- Each request increments the call counter exactly when it finishes a
cache-missed synthesis, so the counter always equals the number of threads
that generated. -/
theorem race_calls_invariant (s : RaceState)
    (h : Relation.ReflTransGen raceStep raceInit s) :
    s.calls = (if s.t1 = .done false then 1 else 0) +
      (if s.t2 = .done false then 1 else 0) := by
  induction h with
  | refl => rfl
  | tail _ hstep ih =>
      cases hstep with
      | check1_miss hb _ =>
          simp only [hb] at ih
          simpa using ih
      | check1_hit hb _ =>
          simp only [hb] at ih
          simpa using ih
      | work1 hb =>
          simp only [hb] at ih
          simp at ih ⊢
          split_ifs at ih ⊢ <;> omega
      | check2_miss hb _ =>
          simp only [hb] at ih
          simpa using ih
      | check2_hit hb _ =>
          simp only [hb] at ih
          simpa using ih
      | work2 hb =>
          simp only [hb] at ih
          simp at ih ⊢
          split_ifs at ih ⊢ <;> omega

/-- Claim C5 (amended): there is no per-key in-flight deduplication — each
of two concurrent identical-key callers that observes a cache miss performs
its own synthesis, so across the two requests the model is invoked at most
twice (once per caller), not exactly once; only a caller whose cache check
happens after the other's store returns from the cache without a call. -/
theorem c5_at_most_one_call_per_caller (s : RaceState)
    (h : Relation.ReflTransGen raceStep raceInit s) : s.calls ≤ 2 := by
  have hinv := race_calls_invariant s h
  have h1 : (if s.t1 = .done false then 1 else 0) ≤ 1 := by
    split <;> omega
  have h2 : (if s.t2 = .done false then 1 else 0) ≤ 1 := by
    split <;> omega
  rw [hinv]
  exact Nat.add_le_add h1 h2

/-- Witness for the amended C5 at the concrete two-call end state reached
by the counterexample schedule. -/
theorem c5_witness : (⟨true, .done false, .done false, 2⟩ : RaceState).calls ≤ 2 :=
  c5_at_most_one_call_per_caller ⟨true, .done false, .done false, 2⟩
    (c5_counterexample.1)

/-! ### Claim C9: admission control -/

/-- Claim C9 (code bug): with five concurrent requests, a legal schedule
puts all five `model.generate` calls in flight at once — exceeding
`MAX_CONCURRENT_REQUESTS = 4` — because the `EXECUTOR` thread pool is
constructed but never used and the handlers call the gateway directly. -/
theorem c9_inflight_exceeds_pool :
    Relation.ReflTransGen awsStep
      [.pending, .pending, .pending, .pending, .pending]
      [.inModel, .inModel, .inModel, .inModel, .inModel] ∧
    inFlight [.inModel, .inModel, .inModel, .inModel, .inModel] = 5 ∧
    AwsTtsApi.MAX_CONCURRENT_REQUESTS < 5 := by
  have h1 : awsStep [.pending, .pending, .pending, .pending, .pending]
      [.inModel, .pending, .pending, .pending, .pending] :=
    awsStep.enter [] [.pending, .pending, .pending, .pending]
  have h2 : awsStep [.inModel, .pending, .pending, .pending, .pending]
      [.inModel, .inModel, .pending, .pending, .pending] :=
    awsStep.enter [.inModel] [.pending, .pending, .pending]
  have h3 : awsStep [.inModel, .inModel, .pending, .pending, .pending]
      [.inModel, .inModel, .inModel, .pending, .pending] :=
    awsStep.enter [.inModel, .inModel] [.pending, .pending]
  have h4 : awsStep [.inModel, .inModel, .inModel, .pending, .pending]
      [.inModel, .inModel, .inModel, .inModel, .pending] :=
    awsStep.enter [.inModel, .inModel, .inModel] [.pending]
  have h5 : awsStep [.inModel, .inModel, .inModel, .inModel, .pending]
      [.inModel, .inModel, .inModel, .inModel, .inModel] :=
    awsStep.enter [.inModel, .inModel, .inModel, .inModel] []
  exact ⟨.head h1 (.head h2 (.head h3 (.head h4 (.single h5)))),
    by decide, by decide⟩

/-! ### Claim C3: the segmenter

Facts about `strip`, `joinSp`, the regex split, and the greedy chunking
loop, culminating in `c3_segmenter_sound`. -/

theorem noLeadWs_dropWhile (l : Str) : NoLeadWs (l.dropWhile (isWs ·)) := by
  induction l with
  | nil => intro c h; simp at h
  | cons x t ih =>
      by_cases hx : isWs x = true
      · rw [List.dropWhile_cons_of_pos (by simpa using hx)]
        exact ih
      · rw [List.dropWhile_cons_of_neg (by simpa using hx)]
        intro c h
        simp only [List.head?_cons, Option.some.injEq] at h
        subst h
        simpa using hx

theorem noLeadWs_lstrip (l : Str) : NoLeadWs (lstrip l) := noLeadWs_dropWhile l

theorem lstrip_eq_self (l : Str) (h : NoLeadWs l) : lstrip l = l := by
  cases l with
  | nil => rfl
  | cons x t =>
      have hx := h x rfl
      unfold lstrip
      rw [List.dropWhile_cons_of_neg (by simp [hx])]

theorem noTrailWs_rstrip (l : Str) : NoTrailWs (rstrip l) := by
  intro c h
  unfold rstrip at h
  rw [List.getLast?_reverse] at h
  exact noLeadWs_dropWhile l.reverse c h

theorem rstrip_eq_self (l : Str) (h : NoTrailWs l) : rstrip l = l := by
  have hrev : NoLeadWs l.reverse := by
    intro c hc
    rw [List.head?_reverse] at hc
    exact h c hc
  unfold rstrip
  have hdw : l.reverse.dropWhile (isWs ·) = l.reverse :=
    lstrip_eq_self l.reverse hrev
  rw [hdw, List.reverse_reverse]

theorem lstrip_decomp (l : Str) :
    ∃ w, (∀ c ∈ w, isWs c = true) ∧ l = w ++ lstrip l :=
  ⟨l.takeWhile (isWs ·), fun _ hc => List.mem_takeWhile_imp hc,
    (List.takeWhile_append_dropWhile ..).symm⟩

theorem rstrip_decomp (l : Str) :
    ∃ w, (∀ c ∈ w, isWs c = true) ∧ l = rstrip l ++ w := by
  refine ⟨(l.reverse.takeWhile (isWs ·)).reverse, ?_, ?_⟩
  · intro c hc
    rw [List.mem_reverse] at hc
    exact List.mem_takeWhile_imp hc
  · calc l = l.reverse.reverse := (List.reverse_reverse l).symm
      _ = (l.reverse.takeWhile (isWs ·) ++ l.reverse.dropWhile (isWs ·)).reverse := by
          rw [List.takeWhile_append_dropWhile]
      _ = rstrip l ++ (l.reverse.takeWhile (isWs ·)).reverse := by
          rw [List.reverse_append]
          rfl

theorem noLeadWs_rstrip (l : Str) (h : NoLeadWs l) : NoLeadWs (rstrip l) := by
  obtain ⟨w, _, hw⟩ := rstrip_decomp l
  intro c hc
  rcases hr : rstrip l with _ | ⟨x, t⟩
  · rw [hr] at hc
    simp at hc
  · rw [hr] at hc
    simp only [List.head?_cons, Option.some.injEq] at hc
    have hl : l = (x :: t) ++ w := by
      rw [← hr]
      exact hw
    have hhead : l.head? = some x := by
      rw [hl]
      rfl
    rw [← hc]
    exact h x hhead

theorem noLeadWs_strip (l : Str) : NoLeadWs (strip l) :=
  noLeadWs_rstrip _ (noLeadWs_lstrip l)

theorem noTrailWs_strip (l : Str) : NoTrailWs (strip l) :=
  noTrailWs_rstrip _

theorem strip_eq_self (l : Str) (h1 : NoLeadWs l) (h2 : NoTrailWs l) :
    strip l = l := by
  unfold strip
  rw [lstrip_eq_self l h1, rstrip_eq_self l h2]

theorem strip_idem (l : Str) : strip (strip l) = strip l :=
  strip_eq_self _ (noLeadWs_strip l) (noTrailWs_strip l)

theorem strip_cons_ws (c : Char) (l : Str) (hc : isWs c = true) :
    strip (c :: l) = strip l := by
  unfold strip lstrip
  rw [List.dropWhile_cons_of_pos (by simpa using hc)]

theorem strip_decomp (l : Str) :
    ∃ w1 w2, (∀ c ∈ w1, isWs c = true) ∧ (∀ c ∈ w2, isWs c = true) ∧
      l = w1 ++ strip l ++ w2 := by
  obtain ⟨w1, hw1, h1⟩ := lstrip_decomp l
  obtain ⟨w2, hw2, h2⟩ := rstrip_decomp (lstrip l)
  refine ⟨w1, w2, hw1, hw2, ?_⟩
  calc l = w1 ++ lstrip l := h1
    _ = w1 ++ (rstrip (lstrip l) ++ w2) := by rw [← h2]
    _ = w1 ++ strip l ++ w2 := by rw [List.append_assoc]; rfl

theorem noLeadWs_append (a b : Str) (ha : NoLeadWs a) (hna : a ≠ []) :
    NoLeadWs (a ++ b) := by
  rcases a with _ | ⟨x, t⟩
  · exact absurd rfl hna
  · intro c hc
    simp only [List.cons_append, List.head?_cons, Option.some.injEq] at hc
    rw [← hc]
    exact ha x rfl

theorem noTrailWs_cons (c : Char) (l : Str) (hl : l ≠ [])
    (h : NoTrailWs l) : NoTrailWs (c :: l) := by
  intro x hx
  apply h x
  rcases l with _ | ⟨y, t⟩
  · exact absurd rfl hl
  · rwa [List.getLast?_cons_cons] at hx

theorem noTrailWs_append (a b : Str) (hb : NoTrailWs b) (hnb : b ≠ []) :
    NoTrailWs (a ++ b) := by
  intro c hc
  rw [List.getLast?_append] at hc
  rcases hbl : b.getLast? with _ | x
  · rcases b with _ | ⟨y, t⟩
    · exact absurd rfl hnb
    · simp at hbl
  · rw [hbl] at hc
    simp only [Option.or_some, Option.some.injEq] at hc
    apply hb c
    rw [hbl, hc]

theorem joinSp_cons (s : Str) (g : List Str) (hg : g ≠ []) :
    joinSp (s :: g) = s ++ ' ' :: joinSp g := by
  cases g with
  | nil => exact absurd rfl hg
  | cons a t => rfl

theorem joinSp_append_singleton (g : List Str) (s : Str) (hg : g ≠ []) :
    joinSp (g ++ [s]) = joinSp g ++ ' ' :: s := by
  induction g with
  | nil => exact absurd rfl hg
  | cons a t ih =>
      cases t with
      | nil => rfl
      | cons b u =>
          rw [List.cons_append, joinSp_cons a (b :: u ++ [s]) (by simp),
            ih (by simp), joinSp_cons a (b :: u) (by simp)]
          simp

theorem joinSp_ne_nil (g : List Str) (hg : g ≠ []) (hm : ∀ s ∈ g, s ≠ []) :
    joinSp g ≠ [] := by
  cases g with
  | nil => exact absurd rfl hg
  | cons a t =>
      cases t with
      | nil => exact hm a (by simp)
      | cons b u => simp [joinSp]

/-- Unfolding equation of the scanner at a split point. -/
theorem sentSplitAux_unfold_split (fuel : Nat) (acc : Str) (c : Char)
    (rest : Str) (u : Char) (rest2 : Str)
    (hc : isSentEnd c = true) (hdrop : rest.dropWhile (isWs ·) = u :: rest2)
    (hcond : rest.takeWhile (isWs ·) ≠ [] ∧ isUpper u = true) :
    sentSplitAux (fuel + 1) acc (c :: rest) =
      (acc.reverse ++ [c]) :: sentSplitAux fuel [] (u :: rest2) := by
  simp only [sentSplitAux]
  rw [if_pos hc, hdrop]
  dsimp only
  rw [if_pos hcond]

/-- Unfolding equation of the scanner at a non-sentence-end character. -/
theorem sentSplitAux_unfold_noEnd (fuel : Nat) (acc : Str) (c : Char)
    (rest : Str) (hc : ¬isSentEnd c = true) :
    sentSplitAux (fuel + 1) acc (c :: rest) =
      sentSplitAux fuel (c :: acc) rest := by
  simp only [sentSplitAux]
  rw [if_neg hc]

/-- Unfolding equation of the scanner when only whitespace remains after a
sentence-end character. -/
theorem sentSplitAux_unfold_wsEnd (fuel : Nat) (acc : Str) (c : Char)
    (rest : Str) (hc : isSentEnd c = true)
    (hdrop : rest.dropWhile (isWs ·) = []) :
    sentSplitAux (fuel + 1) acc (c :: rest) =
      sentSplitAux fuel (c :: acc) rest := by
  simp only [sentSplitAux]
  rw [if_pos hc, hdrop]

/-- Unfolding equation of the scanner when the lookahead fails. -/
theorem sentSplitAux_unfold_noMatch (fuel : Nat) (acc : Str) (c : Char)
    (rest : Str) (u : Char) (rest2 : Str)
    (hc : isSentEnd c = true) (hdrop : rest.dropWhile (isWs ·) = u :: rest2)
    (hcond : ¬(rest.takeWhile (isWs ·) ≠ [] ∧ isUpper u = true)) :
    sentSplitAux (fuel + 1) acc (c :: rest) =
      sentSplitAux fuel (c :: acc) rest := by
  simp only [sentSplitAux]
  rw [if_pos hc, hdrop]
  dsimp only
  rw [if_neg hcond]

/-- The scanner `sentSplitAux` splits its input into pieces joined by
non-empty whitespace separator runs. -/
theorem sentSplitAux_sepJoin :
    ∀ (fuel : Nat) (acc l : Str), l.length ≤ fuel →
      SepJoin (sentSplitAux fuel acc l) (acc.reverse ++ l)
  | 0, acc, l, h => by
      have hl : l = [] := List.length_eq_zero.mp (Nat.le_zero.mp h)
      subst hl
      exact .single _
  | fuel + 1, acc, [], _ => by
      show SepJoin [acc.reverse] (acc.reverse ++ [])
      rw [List.append_nil]
      exact .single _
  | fuel + 1, acc, c :: rest, h => by
      have hr : rest.length ≤ fuel := by
        simpa using Nat.succ_le_succ_iff.mp (by simpa using h)
      have hkey : (c :: acc).reverse ++ rest = acc.reverse ++ c :: rest := by
        simp
      by_cases hc : isSentEnd c = true
      · rcases hdrop : rest.dropWhile (isWs ·) with _ | ⟨u, rest2⟩
        · have hrec := sentSplitAux_sepJoin fuel (c :: acc) rest hr
          rw [hkey] at hrec
          rwa [sentSplitAux_unfold_wsEnd fuel acc c rest hc hdrop]
        · by_cases hcond : rest.takeWhile (isWs ·) ≠ [] ∧ isUpper u = true
          · have hlen2 : (u :: rest2).length ≤ fuel := by
              have hd : (rest.dropWhile (isWs ·)).length ≤ rest.length :=
                (List.dropWhile_suffix _).sublist.length_le
              rw [hdrop] at hd
              omega
            have htail := sentSplitAux_sepJoin fuel [] (u :: rest2) hlen2
            rw [List.reverse_nil, List.nil_append] at htail
            have hjoin : SepJoin
                ((acc.reverse ++ [c]) :: sentSplitAux fuel [] (u :: rest2))
                ((acc.reverse ++ [c]) ++ rest.takeWhile (isWs ·) ++ (u :: rest2)) :=
              .cons _ _ _ _ hcond.1
                (fun x hx => List.mem_takeWhile_imp hx) htail
            have hsplit : (acc.reverse ++ [c]) ++ rest.takeWhile (isWs ·) ++
                (u :: rest2) = acc.reverse ++ c :: rest := by
              conv_rhs => rw [← List.takeWhile_append_dropWhile (p := (isWs ·)) (l := rest)]
              rw [hdrop]
              simp
            rw [hsplit] at hjoin
            rwa [sentSplitAux_unfold_split fuel acc c rest u rest2 hc hdrop hcond]
          · have hrec := sentSplitAux_sepJoin fuel (c :: acc) rest hr
            rw [hkey] at hrec
            rwa [sentSplitAux_unfold_noMatch fuel acc c rest u rest2 hc hdrop hcond]
      · have hrec := sentSplitAux_sepJoin fuel (c :: acc) rest hr
        rw [hkey] at hrec
        rwa [sentSplitAux_unfold_noEnd fuel acc c rest hc]

/-- `sentSplit` always yields at least one piece, so the dead
`if not sentences` branch of the source never fires. -/
theorem sentSplitAux_ne_nil :
    ∀ (fuel : Nat) (acc l : Str), sentSplitAux fuel acc l ≠ []
  | 0, _, _ => by simp [sentSplitAux]
  | _ + 1, _, [] => by simp [sentSplitAux]
  | fuel + 1, acc, c :: rest => by
      by_cases hc : isSentEnd c = true
      · rcases hdrop : rest.dropWhile (isWs ·) with _ | ⟨u, rest2⟩
        · rw [sentSplitAux_unfold_wsEnd fuel acc c rest hc hdrop]
          exact sentSplitAux_ne_nil fuel (c :: acc) rest
        · by_cases hcond : rest.takeWhile (isWs ·) ≠ [] ∧ isUpper u = true
          · rw [sentSplitAux_unfold_split fuel acc c rest u rest2 hc hdrop hcond]
            simp
          · rw [sentSplitAux_unfold_noMatch fuel acc c rest u rest2 hc hdrop hcond]
            exact sentSplitAux_ne_nil fuel (c :: acc) rest
      · rw [sentSplitAux_unfold_noEnd fuel acc c rest hc]
        exact sentSplitAux_ne_nil fuel (c :: acc) rest

theorem allWs_append (a b : Str) (ha : ∀ c ∈ a, isWs c = true)
    (hb : ∀ c ∈ b, isWs c = true) : ∀ c ∈ a ++ b, isWs c = true := by
  intro c hc
  rcases List.mem_append.mp hc with h | h
  · exact ha c h
  · exact hb c h

theorem wsJoin_prepend (ss : List Str) (t v : Str)
    (hv : ∀ c ∈ v, isWs c = true) (h : WsJoin ss t) : WsJoin ss (v ++ t) := by
  induction h with
  | nil w hw => exact .nil (v ++ w) (allWs_append v w hv hw)
  | cons w s u rest hs hw hrest _ =>
      have hassoc : v ++ (w ++ s ++ u) = (v ++ w) ++ s ++ u := by
        simp [List.append_assoc]
      rw [hassoc]
      exact .cons _ _ _ _ hs (allWs_append v w hv hw) hrest

theorem wsJoin_append_ws (ss : List Str) (t v : Str)
    (hv : ∀ c ∈ v, isWs c = true) (h : WsJoin ss t) : WsJoin ss (t ++ v) := by
  induction h with
  | nil w hw => exact .nil (w ++ v) (allWs_append w v hw hv)
  | cons w s u rest hs hw _ ih =>
      have hassoc : (w ++ s ++ u) ++ v = w ++ s ++ (u ++ v) := by
        simp [List.append_assoc]
      rw [hassoc]
      exact .cons _ _ _ _ hs hw ih

/-- Pieces joined by whitespace separators, once stripped and with empty
pieces removed, stand to the original text in the `WsJoin` relation. -/
theorem sepJoin_wsJoin (ps : List Str) (u : Str) (h : SepJoin ps u) :
    WsJoin ((ps.map strip).filter (fun s => !s.isEmpty)) u := by
  induction h with
  | single s =>
      obtain ⟨w1, w2, hw1, hw2, hdec⟩ := strip_decomp s
      by_cases hs : strip s = []
      · have hlist : (([s].map strip).filter (fun x => !x.isEmpty)) = [] := by
          simp [hs]
        rw [hlist]
        refine .nil s ?_
        rw [hdec, hs]
        exact allWs_append _ _ (allWs_append _ _ hw1 (by simp)) hw2
      · have hlist : (([s].map strip).filter (fun x => !x.isEmpty))
            = [strip s] := by
          simp [List.isEmpty_iff, hs]
        rw [hlist]
        conv_rhs => rw [hdec]
        exact .cons w1 (strip s) w2 [] hs hw1 (.nil w2 hw2)
  | cons s w t rest hwne hws _ ih =>
      obtain ⟨w1, w2, hw1, hw2, hdec⟩ := strip_decomp s
      by_cases hs : strip s = []
      · have hlist : (((s :: rest).map strip).filter (fun x => !x.isEmpty))
            = ((rest.map strip).filter (fun x => !x.isEmpty)) := by
          simp [hs]
        rw [hlist]
        have hsws : ∀ c ∈ s, isWs c = true := by
          rw [hdec, hs]
          exact allWs_append _ _ (allWs_append _ _ hw1 (by simp)) hw2
        have hassoc : s ++ w ++ t = (s ++ w) ++ t := by
          simp [List.append_assoc]
        rw [hassoc]
        exact wsJoin_prepend _ _ _ (allWs_append s w hsws hws) ih
      · have hlist : (((s :: rest).map strip).filter (fun x => !x.isEmpty))
            = strip s :: ((rest.map strip).filter (fun x => !x.isEmpty)) := by
          simp [List.isEmpty_iff, hs]
        rw [hlist]
        have hassoc : s ++ w ++ t = w1 ++ strip s ++ ((w2 ++ w) ++ t) := by
          conv_lhs => rw [hdec]
          simp [List.append_assoc]
        rw [hassoc]
        exact .cons w1 (strip s) ((w2 ++ w) ++ t) _ hs hw1
          (wsJoin_prepend _ _ _ (allWs_append w2 w hw2 hws) ih)

/-- The sentence list of a text reproduces the text up to separator
whitespace. -/
theorem sents_wsJoin (text : Str) : WsJoin (sents text) text := by
  have h1 := sentSplitAux_sepJoin (strip text).length [] (strip text) le_rfl
  rw [List.reverse_nil, List.nil_append] at h1
  have h2 := sepJoin_wsJoin _ _ h1
  obtain ⟨w1, w2, hw1, hw2, hdec⟩ := strip_decomp text
  have h3 := wsJoin_prepend _ _ w1 hw1 (wsJoin_append_ws _ _ w2 hw2 h2)
  rw [← List.append_assoc, ← hdec] at h3
  exact h3

/-- Unfolding equation of the chunking loop at a whitespace-only
sentence. -/
theorem chunksLoop_unfold_skip (mc ms : Nat) (s : Str) (rest : List Str)
    (cur : Str) (cnt : Nat) (chunks : List Str)
    (hs : (strip s).isEmpty = true) :
    chunksLoop mc ms (s :: rest) cur cnt chunks =
      chunksLoop mc ms rest cur cnt chunks := by
  simp only [chunksLoop]
  rw [if_pos hs]

/-- Unfolding equation of the chunking loop when the limits force the
current chunk to close. -/
theorem chunksLoop_unfold_close (mc ms : Nat) (s : Str) (rest : List Str)
    (cur : Str) (cnt : Nat) (chunks : List Str)
    (hs : (strip s).isEmpty = false)
    (hcond : mc < (strip (cur ++ ' ' :: strip s)).length ∨ ms ≤ cnt) :
    chunksLoop mc ms (s :: rest) cur cnt chunks =
      chunksLoop mc ms rest (strip s) 1
        (if cur.isEmpty then chunks else chunks ++ [cur]) := by
  simp only [chunksLoop]
  rw [if_neg (by simp [hs]), if_pos hcond]

/-- Unfolding equation of the chunking loop when the sentence is absorbed
into the current chunk. -/
theorem chunksLoop_unfold_extend (mc ms : Nat) (s : Str) (rest : List Str)
    (cur : Str) (cnt : Nat) (chunks : List Str)
    (hs : (strip s).isEmpty = false)
    (hcond : ¬(mc < (strip (cur ++ ' ' :: strip s)).length ∨ ms ≤ cnt)) :
    chunksLoop mc ms (s :: rest) cur cnt chunks =
      chunksLoop mc ms rest (strip (cur ++ ' ' :: strip s)) (cnt + 1) chunks := by
  simp only [chunksLoop]
  rw [if_neg (by simp [hs]), if_neg hcond]

/-- Absorbing a stripped sentence into the running chunk is exactly
space-joining it onto the current group. -/
theorem strip_joinSp_append (g : List Str) (s' : Str)
    (hm : ∀ x ∈ g, x ≠ []) (hL : NoLeadWs (joinSp g))
    (hT : NoTrailWs (joinSp g)) (hLs : NoLeadWs s') (hTs : NoTrailWs s')
    (hsne : s' ≠ []) :
    strip (joinSp g ++ ' ' :: s') = joinSp (g ++ [s']) := by
  by_cases hg : g = []
  · subst hg
    show strip ([] ++ ' ' :: s') = joinSp [s']
    rw [List.nil_append, strip_cons_ws ' ' s' rfl]
    exact strip_eq_self s' hLs hTs
  · have hAne : joinSp g ≠ [] := joinSp_ne_nil g hg hm
    have hLe : NoLeadWs (joinSp g ++ ' ' :: s') :=
      noLeadWs_append _ _ hL hAne
    have hTe : NoTrailWs (joinSp g ++ ' ' :: s') :=
      noTrailWs_append _ _ (noTrailWs_cons ' ' s' hsne hTs) (by simp)
    rw [strip_eq_self _ hLe hTe, joinSp_append_singleton g s' hg]

/-- Invariant of the greedy chunking loop: the emitted chunks are
space-joins of consecutive groups of the remaining stripped non-empty
sentences; every group is non-empty, holds at most `max_sentences`
sentences, and fits in `max_chars` unless it is a single sentence. -/
theorem chunksLoop_spec (mc ms : Nat) (hms : 1 ≤ ms) :
    ∀ (rest : List Str) (g : List Str) (G : List (List Str)),
      (∀ s ∈ g, s ≠ []) →
      NoLeadWs (joinSp g) → NoTrailWs (joinSp g) →
      g.length ≤ ms →
      ((joinSp g).length ≤ mc ∨ g.length = 1) →
      (∀ gr ∈ G, gr ≠ [] ∧ gr.length ≤ ms ∧
        ((joinSp gr).length ≤ mc ∨ gr.length = 1) ∧ ∀ s ∈ gr, s ≠ []) →
      ∃ H : List (List Str),
        chunksLoop mc ms rest (joinSp g) g.length (G.map joinSp) =
          H.map joinSp ∧
        H.flatten = G.flatten ++ g ++
          ((rest.map strip).filter (fun s => !s.isEmpty)) ∧
        ∀ gr ∈ H, gr ≠ [] ∧ gr.length ≤ ms ∧
          ((joinSp gr).length ≤ mc ∨ gr.length = 1) ∧ ∀ s ∈ gr, s ≠ []
  | [], g, G, hm, _, _, hglen, hgsize, hG => by
      by_cases hg : g = []
      · subst hg
        refine ⟨G, ?_, by simp, hG⟩
        simp [chunksLoop, joinSp]
      · refine ⟨G ++ [g], ?_, by simp, ?_⟩
        · have hne := joinSp_ne_nil g hg hm
          simp only [chunksLoop, List.map_append, List.map_cons, List.map_nil]
          rw [if_neg (by simp [List.isEmpty_eq_false.mpr hne])]
        · intro gr hgr
          rcases List.mem_append.mp hgr with hmem | hmem
          · exact hG gr hmem
          · rcases List.mem_singleton.mp hmem with rfl
            exact ⟨hg, hglen, hgsize, hm⟩
  | s :: rest, g, G, hm, hL, hT, hglen, hgsize, hG => by
      by_cases hsnil : strip s = []
      · have hskip := chunksLoop_unfold_skip mc ms s rest (joinSp g) g.length
          (G.map joinSp) (by simp [hsnil])
        obtain ⟨H, h1, h2, h3⟩ :=
          chunksLoop_spec mc ms hms rest g G hm hL hT hglen hgsize hG
        refine ⟨H, hskip.trans h1, ?_, h3⟩
        rw [h2]
        simp [hsnil]
      · have hsne : strip s ≠ [] := hsnil
        have hsb : (strip s).isEmpty = false := List.isEmpty_eq_false.mpr hsne
        have hLs : NoLeadWs (strip s) := noLeadWs_strip s
        have hTs : NoTrailWs (strip s) := noTrailWs_strip s
        have hpot : strip (joinSp g ++ ' ' :: strip s) =
            joinSp (g ++ [strip s]) :=
          strip_joinSp_append g (strip s) hm hL hT hLs hTs hsne
        have hfilter : (((s :: rest).map strip).filter (fun x => !x.isEmpty))
            = strip s :: ((rest.map strip).filter (fun x => !x.isEmpty)) := by
          simp [List.isEmpty_iff, hsne]
        by_cases hcond : mc < (strip (joinSp g ++ ' ' :: strip s)).length ∨
            ms ≤ g.length
        · have hclose := chunksLoop_unfold_close mc ms s rest (joinSp g)
            g.length (G.map joinSp) hsb hcond
          by_cases hg : g = []
          · subst hg
            obtain ⟨H, h1, h2, h3⟩ := chunksLoop_spec mc ms hms rest
              [strip s] G (by simpa using hsne) (by simpa [joinSp] using hLs)
              (by simpa [joinSp] using hTs) (by simpa using hms)
              (Or.inr rfl) hG
            refine ⟨H, ?_, ?_, h3⟩
            · rw [hclose]
              simpa [joinSp] using h1
            · rw [h2, hfilter]
              simp
          · have hcurne := joinSp_ne_nil g hg hm
            have hG' : ∀ gr ∈ G ++ [g], gr ≠ [] ∧ gr.length ≤ ms ∧
                ((joinSp gr).length ≤ mc ∨ gr.length = 1) ∧
                ∀ s ∈ gr, s ≠ [] := by
              intro gr hgr
              rcases List.mem_append.mp hgr with hmem | hmem
              · exact hG gr hmem
              · rcases List.mem_singleton.mp hmem with rfl
                exact ⟨hg, hglen, hgsize, hm⟩
            obtain ⟨H, h1, h2, h3⟩ := chunksLoop_spec mc ms hms rest
              [strip s] (G ++ [g]) (by simpa using hsne)
              (by simpa [joinSp] using hLs) (by simpa [joinSp] using hTs)
              (by simpa using hms) (Or.inr rfl) hG'
            refine ⟨H, ?_, ?_, h3⟩
            · rw [hclose]
              rw [if_neg (by simp [List.isEmpty_eq_false.mpr hcurne])]
              have hmapped : G.map joinSp ++ [joinSp g]
                  = (G ++ [g]).map joinSp := by simp
              rw [hmapped]
              simpa [joinSp] using h1
            · rw [h2, hfilter]
              simp
        · push_neg at hcond
          obtain ⟨hfit, hcnt⟩ := hcond
          have hextend := chunksLoop_unfold_extend mc ms s rest (joinSp g)
            g.length (G.map joinSp) hsb (by push_neg; exact ⟨hfit, hcnt⟩)
          obtain ⟨H, h1, h2, h3⟩ := chunksLoop_spec mc ms hms rest
            (g ++ [strip s]) G
            (by intro x hx
                rcases List.mem_append.mp hx with hmem | hmem
                · exact hm x hmem
                · rcases List.mem_singleton.mp hmem with rfl
                  exact hsne)
            (by rw [← hpot]; exact noLeadWs_strip _)
            (by rw [← hpot]; exact noTrailWs_strip _)
            (by simp only [List.length_append, List.length_cons,
                  List.length_nil]
                omega)
            (Or.inl (by rw [← hpot]; exact hfit)) hG
          refine ⟨H, ?_, ?_, h3⟩
          · rw [hextend, hpot]
            have hlen : (g ++ [strip s]).length = g.length + 1 := by simp
            rw [hlen] at h1
            exact h1
          · rw [h2, hfilter]
            simp

/-- Claim C3: `split_text_into_chunks` returns the space-joins of
consecutive groups of the text's sentences: every chunk is non-empty and
either fits in `max_chars` or is a single (over-long) sentence kept whole;
no chunk holds more than `max_sentences` sentences; the groups concatenate
to exactly the text's sentence list; and that sentence list reproduces the
text up to separator whitespace. -/
theorem c3_segmenter_sound (text : Str) (mc ms : Nat) (hms : 1 ≤ ms)
    (_hmc : 1 ≤ mc) :
    ∃ groups : List (List Str),
      split_text_into_chunks text mc ms = groups.map joinSp ∧
      groups.flatten = sents text ∧
      (∀ g ∈ groups, g ≠ [] ∧ g.length ≤ ms ∧
        ((joinSp g).length ≤ mc ∨ g.length = 1) ∧
        ∀ s ∈ g, s ∈ sents text) ∧
      (∀ ch ∈ split_text_into_chunks text mc ms,
        ch ≠ [] ∧ (ch.length ≤ mc ∨ ch ∈ sents text)) ∧
      WsJoin (sents text) text := by
  obtain ⟨H, h1, h2, h3⟩ := chunksLoop_spec mc ms hms
    (sentSplit (strip text)) [] [] (by simp)
    (by intro c h; simp [joinSp] at h) (by intro c h; simp [joinSp] at h)
    (by simp) (Or.inl (by simp [joinSp])) (by simp)
  have hne : sentSplit (strip text) ≠ [] :=
    sentSplitAux_ne_nil (strip text).length [] (strip text)
  have hsplit_eq : split_text_into_chunks text mc ms =
      chunksLoop mc ms (sentSplit (strip text)) [] 0 [] := by
    simp only [split_text_into_chunks]
    rw [if_neg (by simp [List.isEmpty_eq_false.mpr hne])]
  have hmain : split_text_into_chunks text mc ms = H.map joinSp :=
    hsplit_eq.trans h1
  have hjoin : H.flatten = sents text := by
    rw [h2]
    simp [sents]
  refine ⟨H, hmain, hjoin, ?_, ?_, sents_wsJoin text⟩
  · intro g hg
    obtain ⟨hgne, hglen, hgsize, hgm⟩ := h3 g hg
    refine ⟨hgne, hglen, hgsize, ?_⟩
    intro s hs
    rw [← hjoin]
    exact List.mem_flatten.mpr ⟨g, hg, hs⟩
  · intro ch hch
    rw [hmain] at hch
    obtain ⟨g, hg, rfl⟩ := List.mem_map.mp hch
    obtain ⟨hgne, _, hgsize, hgm⟩ := h3 g hg
    refine ⟨joinSp_ne_nil g hgne hgm, ?_⟩
    rcases hgsize with hfit | hone
    · exact Or.inl hfit
    · obtain ⟨a, rfl⟩ := List.length_eq_one.mp hone
      refine Or.inr ?_
      rw [← hjoin]
      exact List.mem_flatten.mpr ⟨[a], hg, by simp [joinSp]⟩

/-- End-to-end check of the spec's segmentation scenario. -/
theorem c3_example_segmentation :
    split_text_into_chunks c3Text 20 1 =
      ["Hello there.".toList, "How are you today?".toList,
        "I am fine.".toList] := by
  decide

/-- Witness for C3: the spec's end-to-end scenario text with
`max_chars = 20`, `max_sentences = 1`. -/
theorem c3_witness :
    ∃ groups : List (List Str),
      split_text_into_chunks c3Text 20 1 = groups.map joinSp ∧
      groups.flatten = sents c3Text ∧
      (∀ g ∈ groups, g ≠ [] ∧ g.length ≤ 1 ∧
        ((joinSp g).length ≤ 20 ∨ g.length = 1) ∧
        ∀ s ∈ g, s ∈ sents c3Text) ∧
      (∀ ch ∈ split_text_into_chunks c3Text 20 1,
        ch ≠ [] ∧ (ch.length ≤ 20 ∨ ch ∈ sents c3Text)) ∧
      WsJoin (sents c3Text) c3Text :=
  c3_segmenter_sound c3Text 20 1 (by decide) (by decide)
